import Mathlib

/-!
Verification development for the 4-bit block-quantized weight decode and
quantized matmul paths of the repository:

* `onnxruntime/contrib_ops/cuda/quantization/dequantize_blockwise.cu`
  (accelerator decoder: `DequantizeEightElements`, `Dequantize4BitsKernel`,
  `Dequantize4Bits` launcher), and
* `onnxruntime/contrib_ops/cpu/quantization/matmul_with_quant_weight.cc`
  (orchestrator: `MatMulWithQuantWeight::Compute`).

Machine floating-point values are embedded as exact rationals `ℚ`; every value
produced by the 4-bit decode (small-integer times scale) is exactly
representable, so the embedding is faithful for the integer/indexing logic and
models the arithmetic in exact (real) arithmetic.  Byte buffers are embedded as
`Nat → Nat` (each application masked to byte range where the source reads a
wider word), scale tables as `Nat → ℚ`, and the optional zero-point table as
`Option (Nat → Nat)`.
-/

namespace OnnxQ4

/-- The 4-bit value stored for packed element `e`: two nibbles per byte, the
low nibble is the earlier element (`e % 2 = 0`), the high nibble the next
(`e % 2 = 1`).  This is the packed-format contract of §4.1 as implemented by
both decoders. -/
def nibbleAt (quant : Nat → Nat) (e : Nat) : Nat :=
  if e % 2 = 0 then quant (e / 2) &&& 0xF else (quant (e / 2) >>> 4) &&& 0xF

/-- Little-endian 32-bit load of four bytes starting at byte offset `off`,
as performed by `Dequantize4BitsKernel` with
`*(reinterpret_cast<const uint32_t*>(quant_data + element_offset / 2))`.
Each byte is masked to its 8-bit range, as a `uint8_t` buffer guarantees. -/
def load32 (quant : Nat → Nat) (off : Nat) : Nat :=
  quant off % 256 + 2 ^ 8 * (quant (off + 1) % 256) +
    2 ^ 16 * (quant (off + 2) % 256) + 2 ^ 24 * (quant (off + 3) % 256)

/-- `DequantizeEightElements` (float overload, dequantize_blockwise.cu lines
32-42): unpacks the eight nibbles of `values_quant` and writes
`output[i] = float(nibble_i) * scale + zp_adjust` with
`zp_adjust = -scale * zp`. -/
def dequantizeEightElements (values_quant : Nat) (scale : ℚ) (zp : Nat) : List ℚ :=
  let zp_adjust : ℚ := -scale * (zp : ℚ)
  [((values_quant &&& 0xF : Nat) : ℚ) * scale + zp_adjust,
   ((values_quant >>> 4 &&& 0xF : Nat) : ℚ) * scale + zp_adjust,
   ((values_quant >>> 8 &&& 0xF : Nat) : ℚ) * scale + zp_adjust,
   ((values_quant >>> 12 &&& 0xF : Nat) : ℚ) * scale + zp_adjust,
   ((values_quant >>> 16 &&& 0xF : Nat) : ℚ) * scale + zp_adjust,
   ((values_quant >>> 20 &&& 0xF : Nat) : ℚ) * scale + zp_adjust,
   ((values_quant >>> 24 &&& 0xF : Nat) : ℚ) * scale + zp_adjust,
   ((values_quant >>> 28 &&& 0xF : Nat) : ℚ) * scale + zp_adjust]

/-- The zero point the kernel reads for block `b`:
`zero_points ? float(zero_points[block_id]) : 8.f`
(dequantize_blockwise.cu line 59; the CPU decoder uses the same default). -/
def zpAt (zps : Option (Nat → Nat)) (b : Nat) : Nat :=
  match zps with
  | some z => z b
  | none => 8

/-- `block_id` computed by `Dequantize4BitsKernel` (line 55):
`blockIdx.x * blocks_per_tb + (threadIdx.x * 8) / block_size`. -/
def kernelBlockId (blocks_per_tb block_size blockIdx threadIdx : Nat) : Nat :=
  blockIdx * blocks_per_tb + threadIdx * 8 / block_size

/-- `element_offset` computed by `Dequantize4BitsKernel` (line 56):
`block_id * block_size + (threadIdx.x * 8) % block_size`. -/
def kernelElementOffset (blocks_per_tb block_size blockIdx threadIdx : Nat) : Nat :=
  kernelBlockId blocks_per_tb block_size blockIdx threadIdx * block_size +
    threadIdx * 8 % block_size

/-- One thread of `Dequantize4BitsKernel` (lines 54-62): computes its
`element_offset`, loads the 32-bit packed word at byte `element_offset / 2`,
reads the scale and zero point for its `block_id` and produces the eight
values it writes at `output[element_offset ..= element_offset + 7]`. -/
def dequantize4BitsKernelThread (quant : Nat → Nat) (scales : Nat → ℚ)
    (zps : Option (Nat → Nat)) (blocks_per_tb block_size blockIdx threadIdx : Nat) :
    Nat × List ℚ :=
  let block_id := kernelBlockId blocks_per_tb block_size blockIdx threadIdx
  let element_offset := kernelElementOffset blocks_per_tb block_size blockIdx threadIdx
  let quant_value := load32 quant (element_offset / 2)
  let scale := scales block_id
  let zero_point := zpAt zps block_id
  (element_offset, dequantizeEightElements quant_value scale zero_point)

/-- `CeilDiv` as used by the `Dequantize4Bits` launcher. -/
def ceilDiv (a b : Nat) : Nat := (a + b - 1) / b

/-- `blocks_per_tb = GridDim::maxThreadsPerBlock * 8 / block_size`
(dequantize_blockwise.cu line 76); the threads-per-block constant is kept as
the parameter `maxThreadsPerBlock`. -/
def blocksPerTb (maxThreadsPerBlock block_size : Nat) : Nat :=
  maxThreadsPerBlock * 8 / block_size

/-- `blocks_per_grid = CeilDiv(n * k_blocks, blocks_per_tb)`
(dequantize_blockwise.cu line 78). -/
def blocksPerGrid (n k_blocks bpt : Nat) : Nat := ceilDiv (n * k_blocks) bpt

/-- The decoded value the accelerator path produces at flat output index `e`:
the worker covering `e` handles elements `8*(e/8) ..= 8*(e/8)+7`, loads the
word at byte `4 * (e / 8)` and uses the scale/zero point of block `e / 32`;
`cudaDecodedValueAt` reads off its `(e % 8)`-th output.  The agreement with
the per-thread kernel embedding is proved in `kernelThread_value_eq`. -/
def cudaDecodedValueAt (quant : Nat → Nat) (scales : Nat → ℚ)
    (zps : Option (Nat → Nat)) (e : Nat) : ℚ :=
  (dequantizeEightElements (load32 quant (4 * (e / 8))) (scales (e / 32))
    (zpAt zps (e / 32))).getD (e % 8) 0

/-- The first `numel` elements decoded by the accelerator path. -/
def cudaDecodeRow (quant : Nat → Nat) (scales : Nat → ℚ)
    (zps : Option (Nat → Nat)) (numel : Nat) : List ℚ :=
  (List.range numel).map (cudaDecodedValueAt quant scales zps)

theorem and_fifteen_eq_mod (x : Nat) : x &&& 15 = x % 16 := by
  have h := Nat.and_pow_two_sub_one_eq_mod x 4
  norm_num at h
  exact h

theorem kernelElementOffset_eq (B bi t : Nat) :
    kernelElementOffset B 32 bi t = 32 * (bi * B) + 8 * t := by
  unfold kernelElementOffset kernelBlockId
  generalize bi * B = m
  omega

/-- `nibbleAt` in pure `/`/`%` arithmetic. -/
theorem nibbleAt_eq (q : Nat → Nat) (e : Nat) :
    nibbleAt q e = if e % 2 = 0 then q (e / 2) % 16 else q (e / 2) / 16 % 16 := by
  unfold nibbleAt
  simp only [and_fifteen_eq_mod, Nat.shiftRight_eq_div_pow]

/-- Nibble `j` of the 32-bit word loaded at byte `off` is exactly the packed
nibble of element `2 * off + j`. -/
theorem load32_nibble (q : Nat → Nat) (off j : Nat) (hj : j < 8) :
    load32 q off >>> (4 * j) &&& 15 =
      (if j % 2 = 0 then q (off + j / 2) % 16 else q (off + j / 2) / 16 % 16) := by
  interval_cases j <;>
    simp only [load32, and_fifteen_eq_mod, Nat.shiftRight_eq_div_pow] <;>
    norm_num <;> omega

theorem dequantizeEightElements_getD (v : Nat) (s : ℚ) (z : Nat) (j : Nat) (hj : j < 8) :
    (dequantizeEightElements v s z).getD j 0 =
      ((v >>> (4 * j) &&& 15 : Nat) : ℚ) * s + -s * (z : ℚ) := by
  interval_cases j <;> simp [dequantizeEightElements]

/-- The value a kernel thread produces for its `j`-th output (to be written at
index `element_offset + j`) is `cudaDecodedValueAt` at that index. -/
theorem kernelThread_value_eq (quant : Nat → Nat) (scales : Nat → ℚ)
    (zps : Option (Nat → Nat)) (B bi t j : Nat) (hj : j < 8) :
    (dequantize4BitsKernelThread quant scales zps B 32 bi t).2.getD j 0 =
      cudaDecodedValueAt quant scales zps
        (kernelElementOffset B 32 bi t + j) := by
  unfold dequantize4BitsKernelThread cudaDecodedValueAt
  have heo : kernelElementOffset B 32 bi t = 32 * (bi * B) + 8 * t :=
    kernelElementOffset_eq B bi t
  have hbid : kernelBlockId B 32 bi t = bi * B + t * 8 / 32 := rfl
  dsimp only
  rw [heo, hbid]
  generalize bi * B = m
  rw [show (32 * m + 8 * t + j) / 8 = 4 * m + t from by omega,
      show (32 * m + 8 * t) / 2 = 4 * (4 * m + t) from by omega,
      show (32 * m + 8 * t + j) / 32 = m + t * 8 / 32 from by omega,
      show (32 * m + 8 * t + j) % 8 = j from by omega]

/-- Modelled from the spec: the CPU decoder `DequantizeBlockwiseWeight<float, 32, 4>`
is declared in `dequantize_blockwise_weight.h`, which is not among the provided
sources.  Following §4.2: for each block `b = e / 32`, read its scale, read its
zero point (default 8 when the table is absent), unpack the 4-bit value of
element `e` and write `packedNibble * scale - scale * zeroPoint` to dense
position `e`. -/
def cpuDecodeElement (quant : Nat → Nat) (scales : Nat → ℚ)
    (zps : Option (Nat → Nat)) (e : Nat) : ℚ :=
  (nibbleAt quant e : ℚ) * scales (e / 32) - scales (e / 32) * (zpAt zps (e / 32) : ℚ)

/-- Modelled from the spec: the dense buffer the CPU decoder writes for an
`N×K` weight (row-major, `N * K` elements). -/
def cpuDecode (quant : Nat → Nat) (scales : Nat → ℚ)
    (zps : Option (Nat → Nat)) (N K : Nat) : List ℚ :=
  (List.range (N * K)).map (cpuDecodeElement quant scales zps)

/-- Pointwise agreement of the accelerator decode and the CPU decode in exact
arithmetic. -/
theorem cuda_cpu_element_eq (quant : Nat → Nat) (scales : Nat → ℚ)
    (zps : Option (Nat → Nat)) (e : Nat) :
    cudaDecodedValueAt quant scales zps e = cpuDecodeElement quant scales zps e := by
  unfold cudaDecodedValueAt cpuDecodeElement
  rw [dequantizeEightElements_getD _ _ _ _ (Nat.mod_lt e (by norm_num))]
  rw [load32_nibble quant (4 * (e / 8)) (e % 8) (Nat.mod_lt e (by norm_num))]
  rw [nibbleAt_eq]
  rw [show 4 * (e / 8) + e % 8 / 2 = e / 2 from by omega,
      show e % 8 % 2 = e % 2 from by omega]
  rcases Nat.mod_two_eq_zero_or_one e with h | h <;> simp [h] <;> ring

/-- The error taxonomy surfaced by `MatMulWithQuantWeight::Compute` (§7):
`ORT_ENFORCE` on the static configuration, and shape negotiation failures. -/
inductive ComputeError where
  | unsupportedConfiguration (msg : String)
  | shapeError (msg : String)
deriving DecidableEq, Repr

/-- Observable side effects of one `MatMulWithQuantWeight::Compute` call, in
program order: scratch allocation (with its element count), the blockwise
weight decode, and the batched GEMM call (with its descriptor count). -/
inductive Effect where
  | alloc (numel : Nat)
  | decode
  | gemmBatch (numBatches : Nat)
deriving DecidableEq, Repr

/-- One independent GEMM sub-problem (§3, Batch Descriptor): offsets into the
activation, the decoded weight buffer and the output. -/
structure BatchDesc where
  leftOffset : Nat
  rightOffset : Nat
  outputOffset : Nat
deriving DecidableEq, Repr

/-- Result of the shape negotiation: the output shape, the collapsed row count
`M` and the batch descriptors. -/
structure HelperResult where
  outputShape : List Nat
  M : Nat
  descs : List BatchDesc
deriving DecidableEq, Repr

/-- Modelled from the spec: `MatMulComputeHelper::Compute` (from
`matmul_helper.h`, not among the provided sources), called with
`a->Shape()`, `b_shape = {N, K}`, `transa = false`, `transb = true`.  Per
§4.4/§3 it validates that the activation's inner dimension equals `K`
(surfacing a shape error, never truncating), negotiates the output shape as
the activation's leading dimensions followed by `N`, collapses the leading
dimensions into `M`, and, the weight being 2-D, derives a single batch
descriptor sharing the decoded buffer at offset 0. -/
def matmulComputeHelper (aShape : List Nat) (N K : Nat) :
    Except ComputeError HelperResult :=
  match aShape.getLast? with
  | none => .error (.shapeError "activation must be at least 1-D")
  | some ka =>
    if ka = K then
      .ok ⟨aShape.dropLast ++ [N], aShape.dropLast.prod, [⟨0, 0, 0⟩]⟩
    else .error (.shapeError "A and B shapes mismatch")

/-- One entry of the `MLAS_SGEMM_DATA_PARAMS` array built at lines 90-101:
operand accessors, leading dimensions, output placement and the `alpha`/`beta`
coefficients. -/
structure GemmParams where
  A : Nat → ℚ
  lda : Nat
  B : Nat → ℚ
  ldb : Nat
  cOffset : Nat
  ldc : Nat
  alpha : ℚ
  beta : ℚ

/-- The single `MlasGemmBatch(CblasNoTrans, CblasTrans, M, N, K, data,
max_len, thread_pool)` call at lines 102-103: call-level transpose flags and
dimensions plus the per-batch parameter entries. -/
structure GemmBatchCall where
  transA : Bool
  transB : Bool
  M : Nat
  N : Nat
  K : Nat
  params : List GemmParams

/-- The operator attributes read in the `MatMulWithQuantWeight` constructor
(`K`, `N`, `block_size`, `bits`; shape-typed attributes embedded as `Nat`). -/
structure Attrs where
  K : Nat
  N : Nat
  block_size : Nat
  nbits : Nat

/-- The tensors a `Compute` call consumes: activation shape and data, packed
weight shape and byte data, scale table, optional zero-point table. -/
structure ComputeInputs where
  aShape : List Nat
  aData : Nat → ℚ
  bShape : List Nat
  bData : Nat → Nat
  scales : Nat → ℚ
  zeroPoints : Option (Nat → Nat)

/-- `MatMulWithQuantWeight::Compute` (matmul_with_quant_weight.cc lines
44-106): enforce `bits == 4` and `block_size == 32`; allocate the `K*N`
scratch buffer and decode the packed weight into it (lines 63-67); negotiate
shapes against `{N, K}` with `B` transposed (lines 70-73); bail out
successfully if the output is empty (lines 77-79); otherwise build one
parameter entry per batch descriptor with `alpha = 1`, `beta = 0` and issue a
single batched GEMM call (lines 90-103).  The packed weight tensor's own
shape (`bShape`) is never consulted.  Returns the result together with the
ordered effect trace. -/
def MatMulWithQuantWeight.Compute (attrs : Attrs) (inp : ComputeInputs) :
    Except ComputeError (List Nat × Option GemmBatchCall) × List Effect :=
  if attrs.nbits = 4 then
    if attrs.block_size = 32 then
      let tmp_b_data := cpuDecode inp.bData inp.scales inp.zeroPoints attrs.N attrs.K
      let trace := [Effect.alloc (attrs.K * attrs.N), Effect.decode]
      match matmulComputeHelper inp.aShape attrs.N attrs.K with
      | .error err => (.error err, trace)
      | .ok h =>
        if h.outputShape.prod = 0 then (.ok (h.outputShape, none), trace)
        else
          let call : GemmBatchCall :=
            { transA := false, transB := true, M := h.M, N := attrs.N, K := attrs.K,
              params := h.descs.map fun d =>
                { A := fun i => inp.aData (d.leftOffset + i), lda := attrs.K,
                  B := fun i => tmp_b_data.getD (d.rightOffset + i) 0, ldb := attrs.K,
                  cOffset := d.outputOffset, ldc := attrs.N,
                  alpha := 1, beta := 0 } }
          (.ok (h.outputShape, some call), trace ++ [Effect.gemmBatch call.params.length])
    else (.error (.unsupportedConfiguration "only block size 32 is supported now"), [])
  else (.error (.unsupportedConfiguration "only 4 bits is supported now"), [])

/-- Modelled from the spec: the GEMM capability ("compute C = A·Bᵗ for a set
of independent sub-problems ... given dense row-major buffers and strides",
§1/§4.4): the entry the capability writes at `(mi, ni)` for one sub-problem is
`alpha * (op(A)·op(B))[mi, ni] + beta * cIn`. -/
def gemmEntry (call : GemmBatchCall) (p : GemmParams) (cIn : ℚ) (mi ni : Nat) : ℚ :=
  p.alpha * (∑ j ∈ Finset.range call.K,
      (if call.transA then p.A (j * p.lda + mi) else p.A (mi * p.lda + j)) *
        (if call.transB then p.B (ni * p.ldb + j) else p.B (j * p.ldb + ni))) +
    p.beta * cIn

/-- `true` iff the result is an `UnsupportedConfiguration` failure. -/
def resultIsUnsupported :
    Except ComputeError (List Nat × Option GemmBatchCall) → Bool
  | .error (.unsupportedConfiguration _) => true
  | _ => false

/-- `true` iff the result is a shape-negotiation failure. -/
def resultIsShapeError :
    Except ComputeError (List Nat × Option GemmBatchCall) → Bool
  | .error (.shapeError _) => true
  | _ => false

/-- Every one of a thread's eight output indices lies in the block whose scale
and zero point the thread reads. -/
theorem elementOffset_add_div32 (B bi t j : Nat) (hj : j < 8) :
    (kernelElementOffset B 32 bi t + j) / 32 = kernelBlockId B 32 bi t := by
  unfold kernelElementOffset kernelBlockId
  generalize bi * B = m
  omega

/-- C1: the accelerator decoder maps each byte's low nibble to the earlier
output element and its high nibble to the next (the `nibbleAt` contract, low
nibble at even index), and every output element equals
`packedNibble * scale - scale * zeroPoint`; decoding the packed row
`[0x10, 0x32, 0x54, 0x76, 0x98, 0xBA, 0xDC, 0xFE]` (nibble values 0..15) with
scale 2 and no zero-point table yields exactly `[-16, -14, ..., 14]`. -/
theorem c1_decode_formula_and_example :
    (∀ (quant : Nat → Nat) (scales : Nat → ℚ) (zps : Option (Nat → Nat))
        (B bi t j : Nat), j < 8 →
        (dequantize4BitsKernelThread quant scales zps B 32 bi t).2.getD j 0 =
          (nibbleAt quant (kernelElementOffset B 32 bi t + j) : ℚ) *
              scales (kernelBlockId B 32 bi t) -
            scales (kernelBlockId B 32 bi t) *
              (zpAt zps (kernelBlockId B 32 bi t) : ℚ)) ∧
    cudaDecodeRow (fun i => [0x10, 0x32, 0x54, 0x76, 0x98, 0xBA, 0xDC, 0xFE].getD i 0)
        (fun _ => 2) none 16 =
      [-16, -14, -12, -10, -8, -6, -4, -2, 0, 2, 4, 6, 8, 10, 12, 14] := by
  constructor
  · intro quant scales zps B bi t j hj
    rw [kernelThread_value_eq quant scales zps B bi t j hj, cuda_cpu_element_eq]
    unfold cpuDecodeElement
    rw [elementOffset_add_div32 B bi t j hj]
  · unfold cudaDecodeRow
    rw [List.map_congr_left fun e _ => cuda_cpu_element_eq _ _ _ e]
    simp [cpuDecodeElement, nibbleAt_eq, zpAt, List.range_succ]
    norm_num

/-- C1 witness: the general formula instantiated at thread `(0, 1)` of a
64-blocks-per-group launch, output 2, constant byte `0x21`, scale 3. -/
theorem c1_witness :
    (2:Nat) < 8 ∧
    (dequantize4BitsKernelThread (fun _ => 0x21) (fun _ => 3) none 64 32 0 1).2.getD 2 0 =
      (nibbleAt (fun _ => 0x21) (kernelElementOffset 64 32 0 1 + 2) : ℚ) *
          (fun _ => (3:ℚ)) (kernelBlockId 64 32 0 1) -
        (fun _ => (3:ℚ)) (kernelBlockId 64 32 0 1) *
          (zpAt none (kernelBlockId 64 32 0 1) : ℚ) :=
  ⟨by decide,
   c1_decode_formula_and_example.1 (fun _ => 0x21) (fun _ => 3) none 64 0 1 2 (by decide)⟩

/-- C5: decoding with no zero-point table equals decoding with an explicit
zero-point table filled entirely with 8, on both the accelerator path and the
CPU path. -/
theorem c5_zero_point_default (quant : Nat → Nat) (scales : Nat → ℚ) (numel N K : Nat) :
    cudaDecodeRow quant scales none numel =
        cudaDecodeRow quant scales (some fun _ => 8) numel ∧
      cpuDecode quant scales none N K = cpuDecode quant scales (some fun _ => 8) N K :=
  ⟨rfl, rfl⟩

/-- C7: the accelerator decoder and the (spec-modelled) CPU decoder compute
the same function in exact arithmetic: every value a kernel thread writes
equals the CPU decoder's value at the same dense index, and whole decoded
buffers coincide. -/
theorem c7_cpu_accelerator_equivalence (quant : Nat → Nat) (scales : Nat → ℚ)
    (zps : Option (Nat → Nat)) :
    (∀ B bi t j, j < 8 →
        (dequantize4BitsKernelThread quant scales zps B 32 bi t).2.getD j 0 =
          cpuDecodeElement quant scales zps (kernelElementOffset B 32 bi t + j)) ∧
    ∀ N K, cudaDecodeRow quant scales zps (N * K) = cpuDecode quant scales zps N K := by
  constructor
  · intro B bi t j hj
    rw [kernelThread_value_eq quant scales zps B bi t j hj, cuda_cpu_element_eq]
  · intro N K
    unfold cudaDecodeRow cpuDecode
    exact List.map_congr_left fun e _ => cuda_cpu_element_eq quant scales zps e

/-- C7 witness: thread `(0, 3)` of a 64-blocks-per-group launch, output 5,
against the CPU decoder at the matching index. -/
theorem c7_witness :
    (5:Nat) < 8 ∧
    (dequantize4BitsKernelThread (fun i => i) (fun b => b) (some fun _ => 1) 64 32 0 3).2.getD 5 0 =
      cpuDecodeElement (fun i => i) (fun b => b) (some fun _ => 1)
        (kernelElementOffset 64 32 0 3 + 5) :=
  ⟨by decide,
   (c7_cpu_accelerator_equivalence (fun i => i) (fun b => b) (some fun _ => 1)).1 64 0 3 5
     (by decide)⟩

/-- C9: a worker's eight outputs all belong to the single block whose scale
and zero point it reads: its `element_offset` is a multiple of 8 with
`element_offset % 32 + 8 ≤ 32`, each of the eight output indices has block
index `block_id`, and the four bytes of its single 32-bit load lie inside
that block's 16 packed bytes. -/
theorem c9_worker_single_block (B bi t nk : Nat)
    (hin : kernelElementOffset B 32 bi t + 8 ≤ nk) :
    8 ∣ kernelElementOffset B 32 bi t ∧
    kernelElementOffset B 32 bi t % 32 + 8 ≤ 32 ∧
    (∀ j, j < 8 →
      (kernelElementOffset B 32 bi t + j) / 32 = kernelBlockId B 32 bi t) ∧
    kernelBlockId B 32 bi t * 16 ≤ kernelElementOffset B 32 bi t / 2 ∧
    kernelElementOffset B 32 bi t / 2 + 4 ≤ kernelBlockId B 32 bi t * 16 + 16 := by
  have heo : kernelElementOffset B 32 bi t =
      (bi * B + t * 8 / 32) * 32 + t * 8 % 32 := rfl
  have hbid : kernelBlockId B 32 bi t = bi * B + t * 8 / 32 := rfl
  refine ⟨?_, ?_, fun j hj => ?_, ?_, ?_⟩ <;> omega

/-- C9 witness: thread `(1, 2)` of a 64-blocks-per-group launch inside a
4096-element output. -/
theorem c9_witness :
    kernelElementOffset 64 32 1 2 + 8 ≤ 4096 ∧
    (8 ∣ kernelElementOffset 64 32 1 2 ∧
      kernelElementOffset 64 32 1 2 % 32 + 8 ≤ 32 ∧
      (∀ j, j < 8 →
        (kernelElementOffset 64 32 1 2 + j) / 32 = kernelBlockId 64 32 1 2) ∧
      kernelBlockId 64 32 1 2 * 16 ≤ kernelElementOffset 64 32 1 2 / 2 ∧
      kernelElementOffset 64 32 1 2 / 2 + 4 ≤ kernelBlockId 64 32 1 2 * 16 + 16) :=
  ⟨by decide, c9_worker_single_block 64 1 2 4096 (by decide)⟩

/-- C3: at `n = 1`, `k = 32` (a single 32-element block) with 256 threads per
thread block (`blocks_per_tb = 64`), the launcher still launches one full
thread block of 256 threads; thread 4 of that block is launched, yet its
`element_offset` starts at the end of the `n*k = 32` decoded elements and its
`block_id` is past the only block, so its packed-data read, scale/zero-point
reads and output writes all fall outside the `n*k` range — the claim's
"no launched worker reads or writes outside the n*k element range" fails. -/
theorem c3_out_of_range_worker :
    blocksPerGrid 1 (32 / 32) (blocksPerTb 256 32) = 1 ∧
    (4:Nat) < 256 ∧
    1 * 32 ≤ kernelElementOffset (blocksPerTb 256 32) 32 0 4 ∧
    1 * (32 / 32) ≤ kernelBlockId (blocksPerTb 256 32) 32 0 4 := by decide

/-- C4: with `bits ≠ 4` or `block_size ≠ 32` the call fails with an
`UnsupportedConfiguration` error and an empty effect trace — before any
scratch allocation, decode, or GEMM call — regardless of the other inputs. -/
theorem c4_unsupported_configuration (attrs : Attrs) (inp : ComputeInputs)
    (h : attrs.nbits ≠ 4 ∨ attrs.block_size ≠ 32) :
    resultIsUnsupported (MatMulWithQuantWeight.Compute attrs inp).1 = true ∧
      (MatMulWithQuantWeight.Compute attrs inp).2 = [] := by
  unfold MatMulWithQuantWeight.Compute
  by_cases h4 : attrs.nbits = 4
  · have h32 : attrs.block_size ≠ 32 := by tauto
    rw [if_pos h4, if_neg h32]
    exact ⟨rfl, rfl⟩
  · rw [if_neg h4]
    exact ⟨rfl, rfl⟩

/-- C4 witness: `bits = 8`, `block_size = 16`. -/
theorem c4_witness :
    ((8:Nat) ≠ 4 ∨ (16:Nat) ≠ 32) ∧
    (resultIsUnsupported (MatMulWithQuantWeight.Compute ⟨32, 1, 16, 8⟩
        ⟨[1, 32], fun _ => 0, [1, 16], fun _ => 0, fun _ => 0, none⟩).1 = true ∧
      (MatMulWithQuantWeight.Compute ⟨32, 1, 16, 8⟩
        ⟨[1, 32], fun _ => 0, [1, 16], fun _ => 0, fun _ => 0, none⟩).2 = []) :=
  ⟨by decide, c4_unsupported_configuration _ _ (by decide)⟩

/-- C2 counterexample: a call whose negotiated output `[0, 1]` has zero
elements still allocates the scratch buffer and decodes the packed weight —
the effect trace is `[alloc 32, decode]`, so the claim's "without allocating
the scratch dense buffer, without invoking any decoder" fails (only the GEMM
call is skipped). -/
theorem c2_counterexample :
    MatMulWithQuantWeight.Compute ⟨32, 1, 32, 4⟩
        ⟨[0, 32], fun _ => 0, [1, 16], fun _ => 0, fun _ => 0, none⟩ =
      (.ok ([0, 1], none), [.alloc 32, .decode]) ∧
    Effect.decode ∈ (MatMulWithQuantWeight.Compute ⟨32, 1, 32, 4⟩
        ⟨[0, 32], fun _ => 0, [1, 16], fun _ => 0, fun _ => 0, none⟩).2 :=
  ⟨rfl, by decide⟩

/-- C2 (amended): when the negotiated output shape has zero elements the call
returns success without invoking any GEMM call; the scratch allocation and
the decode do occur first. -/
theorem c2_empty_output_no_gemm (attrs : Attrs) (inp : ComputeInputs)
    (h4 : attrs.nbits = 4) (h32 : attrs.block_size = 32) (hres : HelperResult)
    (hh : matmulComputeHelper inp.aShape attrs.N attrs.K = .ok hres)
    (hzero : hres.outputShape.prod = 0) :
    MatMulWithQuantWeight.Compute attrs inp =
      (.ok (hres.outputShape, none), [.alloc (attrs.K * attrs.N), .decode]) := by
  unfold MatMulWithQuantWeight.Compute
  rw [if_pos h4, if_pos h32]
  dsimp only
  rw [hh]
  dsimp only
  rw [if_pos hzero]

/-- C2 witness: the amended statement instantiated at an activation of shape
`[0, 32]`. -/
theorem c2_witness :
    matmulComputeHelper [0, 32] 1 32 = .ok ⟨[0, 1], 0, [⟨0, 0, 0⟩]⟩ ∧
    ([0, 1] : List Nat).prod = 0 ∧
    MatMulWithQuantWeight.Compute ⟨32, 1, 32, 4⟩
        ⟨[0, 32], fun _ => 0, [1, 16], fun _ => 0, fun _ => 0, none⟩ =
      (.ok ([0, 1], none), [.alloc 32, .decode]) :=
  ⟨rfl, by decide,
   c2_empty_output_no_gemm _ _ rfl rfl ⟨[0, 1], 0, [⟨0, 0, 0⟩]⟩ rfl (by decide)⟩

/-- C6 counterexample: an activation of shape `[1, 16]` against declared
`K = 32` is a shape mismatch, yet the decode of the packed weight has already
run when the error is surfaced (trace `[alloc 32, decode]`) — the claim's
"detected and surfaced before any decode" fails. -/
theorem c6_counterexample :
    MatMulWithQuantWeight.Compute ⟨32, 1, 32, 4⟩
        ⟨[1, 16], fun _ => 0, [1, 16], fun _ => 0, fun _ => 0, none⟩ =
      (.error (.shapeError "A and B shapes mismatch"), [.alloc 32, .decode]) ∧
    Effect.decode ∈ (MatMulWithQuantWeight.Compute ⟨32, 1, 32, 4⟩
        ⟨[1, 16], fun _ => 0, [1, 16], fun _ => 0, fun _ => 0, none⟩).2 :=
  ⟨rfl, by decide⟩

/-- C6 (amended): an activation shape incompatible with the declared weight
shape is surfaced as a shape error before any GEMM call (though after the
decode), and the inputs are never silently truncated or padded — the call
fails instead of producing output. -/
theorem c6_shape_mismatch_surfaced (attrs : Attrs) (inp : ComputeInputs)
    (h4 : attrs.nbits = 4) (h32 : attrs.block_size = 32)
    (hmis : inp.aShape.getLast? ≠ some attrs.K) :
    resultIsShapeError (MatMulWithQuantWeight.Compute attrs inp).1 = true ∧
      (MatMulWithQuantWeight.Compute attrs inp).2 =
        [.alloc (attrs.K * attrs.N), .decode] := by
  unfold MatMulWithQuantWeight.Compute matmulComputeHelper
  rw [if_pos h4, if_pos h32]
  dsimp only
  rcases hgl : inp.aShape.getLast? with _ | ka
  · exact ⟨rfl, rfl⟩
  · have hka : ¬ka = attrs.K := fun hk => hmis (by rw [hgl, hk])
    dsimp only
    rw [if_neg hka]
    exact ⟨rfl, rfl⟩

/-- C6 witness: the amended statement instantiated at an activation of shape
`[1, 16]` against declared `K = 32`. -/
theorem c6_witness :
    ([1, 16] : List Nat).getLast? ≠ some 32 ∧
    (resultIsShapeError (MatMulWithQuantWeight.Compute ⟨32, 1, 32, 4⟩
        ⟨[1, 16], fun _ => 0, [1, 16], fun _ => 0, fun _ => 0, none⟩).1 = true ∧
      (MatMulWithQuantWeight.Compute ⟨32, 1, 32, 4⟩
        ⟨[1, 16], fun _ => 0, [1, 16], fun _ => 0, fun _ => 0, none⟩).2 =
        [.alloc 32, .decode]) :=
  ⟨by decide, c6_shape_mismatch_surfaced _ _ rfl rfl (by decide)⟩

/-- C8: with a non-empty output, the orchestrator issues exactly one batched
GEMM call with one parameter entry per batch descriptor, `A` untransposed and
`B` transposed, `alpha = 1`, `beta = 0`; each entry's `B` operand is the
shared decoded `N×K` buffer at the descriptor's offset, and under the GEMM
capability semantics each batch's output entry equals `(A·Bᵗ)[mi, ni]`. -/
theorem c8_single_gemm_batch_call (attrs : Attrs) (inp : ComputeInputs)
    (h4 : attrs.nbits = 4) (h32 : attrs.block_size = 32) (hres : HelperResult)
    (hh : matmulComputeHelper inp.aShape attrs.N attrs.K = .ok hres)
    (hnz : hres.outputShape.prod ≠ 0) :
    ∃ call : GemmBatchCall,
      MatMulWithQuantWeight.Compute attrs inp =
        (.ok (hres.outputShape, some call),
          [.alloc (attrs.K * attrs.N), .decode, .gemmBatch call.params.length]) ∧
      call.transA = false ∧ call.transB = true ∧
      call.M = hres.M ∧ call.N = attrs.N ∧ call.K = attrs.K ∧
      call.params.length = hres.descs.length ∧
      ∀ p ∈ call.params, p.alpha = 1 ∧ p.beta = 0 ∧
        p.lda = attrs.K ∧ p.ldb = attrs.K ∧
        (∃ d ∈ hres.descs,
          p.B = fun i =>
            (cpuDecode inp.bData inp.scales inp.zeroPoints attrs.N attrs.K).getD
              (d.rightOffset + i) 0) ∧
        ∀ cIn mi ni, gemmEntry call p cIn mi ni =
          ∑ j ∈ Finset.range attrs.K,
            p.A (mi * attrs.K + j) * p.B (ni * attrs.K + j) := by
  unfold MatMulWithQuantWeight.Compute
  rw [if_pos h4, if_pos h32]
  dsimp only
  rw [hh]
  dsimp only
  rw [if_neg hnz]
  refine ⟨_, rfl, rfl, rfl, rfl, rfl, rfl, hres.descs.length_map _, ?_⟩
  intro p hp
  rcases List.mem_map.1 hp with ⟨d, hd, rfl⟩
  refine ⟨rfl, rfl, rfl, rfl, ⟨d, hd, rfl⟩, ?_⟩
  intro cIn mi ni
  simp [gemmEntry]

/-- C8 witness: a `1×32` activation against a `1×32` weight. -/
theorem c8_witness :
    matmulComputeHelper [1, 32] 1 32 = .ok ⟨[1, 1], 1, [⟨0, 0, 0⟩]⟩ ∧
    ([1, 1] : List Nat).prod ≠ 0 ∧
    ∃ call : GemmBatchCall,
      MatMulWithQuantWeight.Compute ⟨32, 1, 32, 4⟩
          ⟨[1, 32], fun _ => 1, [1, 16], fun _ => 0x88, fun _ => 1, none⟩ =
        (.ok ([1, 1], some call),
          [.alloc 32, .decode, .gemmBatch call.params.length]) ∧
      call.transA = false ∧ call.transB = true ∧
      call.M = 1 ∧ call.N = 1 ∧ call.K = 32 ∧
      call.params.length = 1 ∧
      ∀ p ∈ call.params, p.alpha = 1 ∧ p.beta = 0 ∧
        p.lda = 32 ∧ p.ldb = 32 ∧
        (∃ d ∈ ([⟨0, 0, 0⟩] : List BatchDesc),
          p.B = fun i =>
            (cpuDecode (fun _ => 0x88) (fun _ => 1) none 1 32).getD
              (d.rightOffset + i) 0) ∧
        ∀ cIn mi ni, gemmEntry call p cIn mi ni =
          ∑ j ∈ Finset.range 32,
            p.A (mi * 32 + j) * p.B (ni * 32 + j) :=
  ⟨rfl, by decide,
   c8_single_gemm_batch_call ⟨32, 1, 32, 4⟩
     ⟨[1, 32], fun _ => 1, [1, 16], fun _ => 0x88, fun _ => 1, none⟩
     rfl rfl ⟨[1, 1], 1, [⟨0, 0, 0⟩]⟩ rfl (by decide)⟩

/-- The CPU decode reads the packed bytes only below index `N*K/2`. -/
theorem cpuDecode_read_set (q q' : Nat → Nat) (scales : Nat → ℚ)
    (zps : Option (Nat → Nat)) (N K : Nat) (h2 : 2 ∣ K)
    (hq : ∀ i, i < N * K / 2 → q i = q' i) :
    cpuDecode q scales zps N K = cpuDecode q' scales zps N K := by
  unfold cpuDecode
  refine List.map_congr_left fun e he => ?_
  rw [List.mem_range] at he
  unfold cpuDecodeElement
  rw [nibbleAt_eq, nibbleAt_eq]
  have he2 : e / 2 < N * K / 2 := by
    obtain ⟨half, rfl⟩ := h2
    have h1 : N * (2 * half) = 2 * (N * half) := by ring
    rw [h1] at he ⊢
    omega
  rw [hq (e / 2) he2]

/-- C10: the logical weight shape comes exclusively from the declared
attributes `N` and `K`: the packed tensor's own shape is never consulted, and
the decode reads only the `N*K/2` bytes the declared shape implies — so two
calls whose packed tensors have different declared shapes but agree on those
bytes behave identically (a blob with a disagreeing byte length is read as if
it had the declared shape, never rejected). -/
theorem c10_weight_shape_from_attrs (attrs : Attrs) (inp : ComputeInputs)
    (s₁ s₂ : List Nat) (q q' : Nat → Nat) (h2 : 2 ∣ attrs.K)
    (hq : ∀ i, i < attrs.N * attrs.K / 2 → q i = q' i) :
    MatMulWithQuantWeight.Compute attrs { inp with bShape := s₁, bData := q } =
      MatMulWithQuantWeight.Compute attrs { inp with bShape := s₂, bData := q' } := by
  have hdec : cpuDecode q inp.scales inp.zeroPoints attrs.N attrs.K =
      cpuDecode q' inp.scales inp.zeroPoints attrs.N attrs.K :=
    cpuDecode_read_set q q' inp.scales inp.zeroPoints attrs.N attrs.K h2 hq
  unfold MatMulWithQuantWeight.Compute
  dsimp only
  rw [hdec]

/-- C10 witness: two packed tensors of declared shapes `[1, 16]` and `[999]`
agreeing on the first 16 bytes. -/
theorem c10_witness :
    (2 ∣ (32:Nat)) ∧
    (∀ i, i < 1 * 32 / 2 →
      (if i < 16 then (7:Nat) else 1) = (if i < 16 then 7 else 2)) ∧
    MatMulWithQuantWeight.Compute ⟨32, 1, 32, 4⟩
        ⟨[1, 32], fun _ => 0, [1, 16], fun i => if i < 16 then 7 else 1,
          fun _ => 1, none⟩ =
      MatMulWithQuantWeight.Compute ⟨32, 1, 32, 4⟩
        ⟨[1, 32], fun _ => 0, [999], fun i => if i < 16 then 7 else 2,
          fun _ => 1, none⟩ :=
  ⟨by decide, by decide,
   c10_weight_shape_from_attrs ⟨32, 1, 32, 4⟩
     ⟨[1, 32], fun _ => 0, [1, 16], fun _ => 0, fun _ => 1, none⟩
     [1, 16] [999] (fun i => if i < 16 then 7 else 1) (fun i => if i < 16 then 7 else 2)
     (by decide) (by decide)⟩
